import Mathlib

/-!
Verification of the BotEn conversational-assistant core against its
natural-language specification.  The Python sources are shallowly embedded:
strings become `List Char`, the per-user Telegram `user_data` dictionary
becomes an explicit `Session` record, and the stateful service methods become
pure functions threading that record.
-/

set_option maxRecDepth 20000

/-- Strings from the Python side are modelled as lists of characters. -/
abbrev Str := List Char

/- ===================== utils/formatters.py ===================== -/

/-- The whitespace characters stripped by Python's `str.strip()` (the ASCII
whitespace class; the inputs this program manipulates contain no other
Unicode whitespace). -/
def pyIsSpace (c : Char) : Bool :=
  c = ' ' || c = '\t' || c = '\n' || c = '\r' || c = '\x0b' || c = '\x0c'

/-- Python `s.strip()`: drop leading and trailing whitespace. -/
def pyStrip (s : Str) : Str :=
  ((s.dropWhile pyIsSpace).reverse.dropWhile pyIsSpace).reverse

/-- Scanner for Python `text.split("\n\n")`: walks the string left to right,
cutting at each non-overlapping occurrence of two consecutive newlines;
`acc` holds the (reversed) characters of the paragraph being read. -/
def splitParAux : Str → Str → List Str
  | [], acc => [acc.reverse]
  | c :: rest, acc =>
      if c = '\n' then
        match rest with
        | d :: rest2 =>
            if d = '\n' then acc.reverse :: splitParAux rest2 []
            else splitParAux (d :: rest2) (c :: acc)
        | [] => [(c :: acc).reverse]
      else splitParAux rest (c :: acc)

/-- Python `text.split("\n\n")`. -/
def splitParagraphs (s : Str) : List Str := splitParAux s []

/-- The paragraph-accumulation loop of `split_long_message` (lines 221-230 of
`utils/formatters.py`): greedily pack paragraphs (re-joined with a blank
line) into `current` while the limit allows, flushing `current` (stripped)
into `parts` otherwise. -/
def splitLoop (maxLength : Nat) : List Str → Str → List Str → List Str
  | [], current, parts =>
      if current ≠ [] then parts ++ [pyStrip current] else parts
  | p :: ps, current, parts =>
      if current.length + p.length + 2 ≤ maxLength then
        splitLoop maxLength ps (current ++ p ++ ['\n', '\n']) parts
      else
        splitLoop maxLength ps (p ++ ['\n', '\n'])
          (if current ≠ [] then parts ++ [pyStrip current] else parts)

/-- `split_long_message(text, max_length)` from `utils/formatters.py`. -/
def split_long_message (text : Str) (maxLength : Nat) : List Str :=
  if text.length ≤ maxLength then [text]
  else splitLoop maxLength (splitParagraphs text) [] []

/- Lemmas about the splitter. -/

theorem pyStrip_length_le (s : Str) : (pyStrip s).length ≤ s.length := by
  unfold pyStrip
  calc ((s.dropWhile pyIsSpace).reverse.dropWhile pyIsSpace).reverse.length
      = ((s.dropWhile pyIsSpace).reverse.dropWhile pyIsSpace).length := by
        simp
    _ ≤ (s.dropWhile pyIsSpace).reverse.length :=
        (List.dropWhile_suffix pyIsSpace).length_le
    _ = (s.dropWhile pyIsSpace).length := by simp
    _ ≤ s.length := (List.dropWhile_suffix pyIsSpace).length_le

theorem splitLoop_bound (maxLength : Nat) :
    ∀ (ps : List Str) (current : Str) (parts : List Str),
      (∀ p ∈ ps, p.length + 2 ≤ maxLength) →
      current.length ≤ maxLength →
      (∀ q ∈ parts, q.length ≤ maxLength) →
      ∀ chunk ∈ splitLoop maxLength ps current parts, chunk.length ≤ maxLength := by
  intro ps
  induction ps with
  | nil =>
      intro current parts _ hcur hparts chunk hc
      simp only [splitLoop] at hc
      by_cases h : current ≠ []
      · simp only [if_pos h, List.mem_append, List.mem_singleton] at hc
        rcases hc with hc | hc
        · exact hparts chunk hc
        · subst hc
          exact le_trans (pyStrip_length_le current) hcur
      · simp only [if_neg h] at hc
        exact hparts chunk hc
  | cons p ps ih =>
      intro current parts hps hcur hparts chunk hc
      simp only [splitLoop] at hc
      by_cases hfit : current.length + p.length + 2 ≤ maxLength
      · rw [if_pos hfit] at hc
        refine ih _ _ (fun q hq => hps q (List.mem_cons_of_mem _ hq)) ?_ hparts chunk hc
        simp only [List.length_append, List.length_cons, List.length_nil]
        omega
      · rw [if_neg hfit] at hc
        refine ih _ _ (fun q hq => hps q (List.mem_cons_of_mem _ hq)) ?_ ?_ chunk hc
        · have := hps p (List.mem_cons_self _ _)
          simp only [List.length_append, List.length_cons, List.length_nil]
          omega
        · intro q hq
          by_cases h : current ≠ []
          · simp only [if_pos h, List.mem_append, List.mem_singleton] at hq
            rcases hq with hq | hq
            · exact hparts q hq
            · subst hq
              exact le_trans (pyStrip_length_le current) hcur
          · simp only [if_neg h] at hq
            exact hparts q hq

theorem splitParAux_cons_ne (c : Char) (rest acc : Str) (hc : c ≠ '\n') :
    splitParAux (c :: rest) acc = splitParAux rest (c :: acc) := by
  conv_lhs => rw [splitParAux.eq_def]
  simp [hc]

/-- If no character of `s` is a newline, the paragraph scanner returns the
single paragraph `acc.reverse ++ s`. -/
theorem splitParAux_no_newline (s : Str) (hs : ∀ c ∈ s, c ≠ '\n') :
    ∀ acc, splitParAux s acc = [acc.reverse ++ s] := by
  induction s with
  | nil => intro acc; simp [splitParAux]
  | cons c rest ih =>
      intro acc
      have hc : c ≠ '\n' := hs c (List.mem_cons_self _ _)
      rw [splitParAux_cons_ne c rest acc hc]
      rw [ih (fun d hd => hs d (List.mem_cons_of_mem _ hd))]
      simp

theorem splitParagraphs_no_newline (s : Str) (hs : ∀ c ∈ s, c ≠ '\n') :
    splitParagraphs s = [s] := by
  unfold splitParagraphs
  rw [splitParAux_no_newline s hs]
  simp

theorem pyStrip_append_newlines (s : Str) (hs : ∀ c ∈ s, ¬ pyIsSpace c)
    (hne : s ≠ []) : pyStrip (s ++ ['\n', '\n']) = s := by
  unfold pyStrip
  have h1 : (s ++ ['\n', '\n']).dropWhile pyIsSpace = s ++ ['\n', '\n'] := by
    cases s with
    | nil => exact absurd rfl hne
    | cons c rest =>
        have := hs c (List.mem_cons_self _ _)
        simp [List.dropWhile_cons, this]
  rw [h1]
  have h2 : (s ++ ['\n', '\n']).reverse = '\n' :: '\n' :: s.reverse := by
    simp
  rw [h2]
  have hn : pyIsSpace '\n' = true := by decide
  simp only [List.dropWhile_cons, hn, if_true]
  have h3 : s.reverse.dropWhile pyIsSpace = s.reverse := by
    cases hrev : s.reverse with
    | nil => simp
    | cons c rest =>
        have hc : c ∈ s := by
          have hm : c ∈ s.reverse := by rw [hrev]; exact List.mem_cons_self _ _
          simpa using hm
        simp [List.dropWhile_cons, hs c hc]
  rw [h3, List.reverse_reverse]

theorem split_long_message_replicate :
    split_long_message (List.replicate 4097 'a') 4096 = [List.replicate 4097 'a'] := by
  have hne : List.replicate 4097 'a' ≠ ([] : Str) := by
    apply List.ne_nil_of_length_pos
    rw [List.length_replicate]
    omega
  unfold split_long_message
  rw [if_neg (by rw [List.length_replicate]; omega)]
  rw [splitParagraphs_no_newline _
    (fun c hc => by rw [List.eq_of_mem_replicate hc]; decide)]
  rw [splitLoop]
  rw [if_neg (by rw [List.length_nil, List.length_replicate]; omega)]
  simp only [ne_eq, not_true_eq_false, if_false, List.nil_append]
  rw [splitLoop]
  rw [if_pos (List.append_ne_nil_of_right_ne_nil _ (by decide))]
  rw [pyStrip_append_newlines _
    (fun c hc => by rw [List.eq_of_mem_replicate hc]; decide) hne]
  rw [List.nil_append]

/-- C1, counterexample: the claim fails as stated.  `split_long_message`
has no hard-cut fallback: on a single 4097-character paragraph it returns
that paragraph as one chunk of length 4097 > 4096. -/
theorem split_long_message_not_always_bounded :
    ¬ (∀ text : Str, ∀ chunk ∈ split_long_message text 4096,
        chunk.length ≤ 4096) := by
  intro h
  have hmem : List.replicate 4097 'a' ∈
      split_long_message (List.replicate 4097 'a') 4096 := by
    rw [split_long_message_replicate]
    exact List.mem_singleton_self _
  have hle := h _ _ hmem
  rw [List.length_replicate] at hle
  omega

/-- C1, amended: every chunk returned by `split_long_message text 4096` has
length at most 4096 **provided** every paragraph of `text` (maximal segment
free of a blank-line separator) has length at most 4094, i.e. fits in the
limit together with its two-character separator.  The code never hard-cuts a
paragraph, so the bound needs this proviso. -/
theorem split_long_message_bounded_of_paragraphs_fit (text : Str)
    (hpar : ∀ p ∈ splitParagraphs text, p.length + 2 ≤ 4096) :
    ∀ chunk ∈ split_long_message text 4096, chunk.length ≤ 4096 := by
  intro chunk hc
  unfold split_long_message at hc
  by_cases h : text.length ≤ 4096
  · rw [if_pos h] at hc
    simp only [List.mem_singleton] at hc
    subst hc
    exact h
  · rw [if_neg h] at hc
    exact splitLoop_bound 4096 _ [] [] hpar (by simp) (by simp) chunk hc

/-- Witness for the amended C1 theorem at a concrete input. -/
theorem split_long_message_bounded_of_paragraphs_fit_witness :
    (∀ p ∈ splitParagraphs ('h' :: 'i' :: []), p.length + 2 ≤ 4096) ∧
    (∀ chunk ∈ split_long_message ('h' :: 'i' :: []) 4096,
        chunk.length ≤ 4096) :=
  ⟨by decide, split_long_message_bounded_of_paragraphs_fit _ (by decide)⟩

/- ===================== utils/validators.py ===================== -/

def isAsciiLetter (c : Char) : Bool :=
  ('a' ≤ c && c ≤ 'z') || ('A' ≤ c && c ≤ 'Z')

def isAsciiDigit (c : Char) : Bool := '0' ≤ c && c ≤ '9'

/-- Characters admitted by the email regex before the `@`. -/
def isEmailLocalChar (c : Char) : Bool :=
  isAsciiLetter c || isAsciiDigit c || c == '.' || c == '_' || c == '%' ||
    c == '+' || c == '-'

/-- Characters admitted by the email regex between `@` and the final dot. -/
def isEmailDomainChar (c : Char) : Bool :=
  isAsciiLetter c || isAsciiDigit c || c == '.' || c == '-'

/-- The part of the email regex after the `@`: some dot splits the rest into
a nonempty run of domain characters and an all-letter tail of length at
least two, anchored at the end of the string. -/
def emailDomainMatch (r : Str) : Bool :=
  (List.range r.length).any fun j =>
    (r.getD j ' ' == '.') && (j != 0) && (r.take j).all isEmailDomainChar &&
      decide (2 ≤ (r.drop (j + 1)).length) && (r.drop (j + 1)).all isAsciiLetter

/-- The whole email regex of `validate_email`: a nonempty run of local
characters, an `@`, and a matching domain part. -/
def emailRegexMatch (s : Str) : Bool :=
  (List.range s.length).any fun i =>
    (s.getD i ' ' == '@') && (i != 0) && (s.take i).all isEmailLocalChar &&
      emailDomainMatch (s.drop (i + 1))

/-- `validate_email` from `utils/validators.py`. -/
def validate_email (email : Str) : Bool × Str :=
  let email := pyStrip email
  if email = [] then (false, "Email не может быть пустым".data)
  else if 254 < email.length then (false, "Email слишком длинный".data)
  else if emailRegexMatch email then (true, [])
  else (false, "Некорректный формат email. Пример: example@mail.com".data)

def isCyrillicLower (c : Char) : Bool := 0x430 ≤ c.toNat && c.toNat ≤ 0x44F

def isCyrillicUpper (c : Char) : Bool := 0x410 ≤ c.toNat && c.toNat ≤ 0x42F

/-- The character class of the name regex: Latin or Cyrillic letters,
whitespace, hyphen. -/
def isNameChar (c : Char) : Bool :=
  isAsciiLetter c || isCyrillicLower c || isCyrillicUpper c ||
    c == 'ё' || c == 'Ё' || pyIsSpace c || c == '-'

/-- `validate_name` from `utils/validators.py`. -/
def validate_name (name : Str) : Bool × Str :=
  let name := pyStrip name
  if name = [] then (false, "Имя не может быть пустым".data)
  else if name.length < 2 then
    (false, "Имя слишком короткое (минимум 2 символа)".data)
  else if 100 < name.length then
    (false, "Имя слишком длинное (максимум 100 символов)".data)
  else if name.all isNameChar then (true, [])
  else (false, "Имя может содержать только буквы, пробелы и дефисы".data)

/-- The separators removed by `re.sub` in `validate_phone`: whitespace,
hyphens and parentheses. -/
def isPhoneSep (c : Char) : Bool := pyIsSpace c || c == '-' || c == '(' || c == ')'

/-- The digits regex of `validate_phone`: an optional leading plus followed
by one or more digits. -/
def phoneDigitsMatch (l : Str) : Bool :=
  match l with
  | [] => false
  | c :: rest =>
      if c == '+' then rest != [] && rest.all isAsciiDigit
      else (c :: rest).all isAsciiDigit

/-- Python `s.startswith(p)`. -/
def pyStartsWith (l pre : Str) : Bool := l.take pre.length == pre

/-- `validate_phone` from `utils/validators.py`. -/
def validate_phone (phone : Str) : Bool × Str :=
  let phone := pyStrip phone
  if phone = [] then (true, [])
  else
    let cleaned := phone.filter fun c => !isPhoneSep c
    if !phoneDigitsMatch cleaned then
      (false, "Телефон может содержать только цифры, +, -, ( )".data)
    else if cleaned.length < 10 then
      (false, "Телефон слишком короткий (минимум 10 цифр)".data)
    else if 15 < cleaned.length then
      (false, "Телефон слишком длинный (максимум 15 цифр)".data)
    else if (pyStartsWith cleaned ('+' :: '7' :: []) ||
        pyStartsWith cleaned ('8' :: [])) && cleaned.length < 11 then
      (false, "Неверный формат российского номера. Пример: +7 900 123 45 67".data)
    else (true, [])

/- ============== services/conversation_manager.py ============== -/

inductive ConversationState where
  | IDLE
  | BOOKING_COURSE
  | BOOKING_TIME
  | BOOKING_NAME
  | BOOKING_EMAIL
  | BOOKING_PHONE
  | BOOKING_CONFIRM
  | AI_CHAT
deriving DecidableEq, Repr

/-- The `.value` string of each `ConversationState` member. -/
def ConversationState.value : ConversationState → Str
  | .IDLE => "idle".data
  | .BOOKING_COURSE => "booking_course".data
  | .BOOKING_TIME => "booking_time".data
  | .BOOKING_NAME => "booking_name".data
  | .BOOKING_EMAIL => "booking_email".data
  | .BOOKING_PHONE => "booking_phone".data
  | .BOOKING_CONFIRM => "booking_confirm".data
  | .AI_CHAT => "ai_chat".data

/-- Python `ConversationState(value)` together with the defensive
`except ValueError: return IDLE` of `get_state`. -/
def conversationStateFromValue (v : Str) : ConversationState :=
  if v = "idle".data then .IDLE
  else if v = "booking_course".data then .BOOKING_COURSE
  else if v = "booking_time".data then .BOOKING_TIME
  else if v = "booking_name".data then .BOOKING_NAME
  else if v = "booking_email".data then .BOOKING_EMAIL
  else if v = "booking_phone".data then .BOOKING_PHONE
  else if v = "booking_confirm".data then .BOOKING_CONFIRM
  else if v = "ai_chat".data then .AI_CHAT
  else .IDLE

/-- The per-user `context.user_data` dictionary, restricted to the keys this
program uses.  `none` models an absent key.  The phone field is doubly
optional because `set_phone` stores a literal Python `None` under the
`booking_phone` key when the user skips the step. -/
structure Session where
  history : List (Str × Str)
  conversation_state : Option Str
  booking_course : Option Str
  booking_time : Option Str
  booking_name : Option Str
  booking_email : Option Str
  booking_phone : Option (Option Str)
deriving DecidableEq, Repr

/-- A fresh `user_data` dictionary: no keys present, no history. -/
def initSession : Session := ⟨[], none, none, none, none, none, none⟩

/-- `ConversationManager.get_state`. -/
def get_state (s : Session) : ConversationState :=
  match s.conversation_state with
  | none => .IDLE
  | some v => conversationStateFromValue v

/-- `ConversationManager.set_state`. -/
def set_state (s : Session) (st : ConversationState) : Session :=
  { s with conversation_state := some st.value }

/-- `ConversationManager.reset_state`. -/
def reset_state (s : Session) : Session := set_state s .IDLE

/-- `ConversationManager.clear_booking_data`. -/
def clear_booking_data (s : Session) : Session :=
  { s with booking_course := none, booking_time := none, booking_name := none,
           booking_email := none, booking_phone := none }

/-- Python `l[-n:]`, as used to trim history.  For `n = 0` the slice
`l[-0:]` is `l[0:]`, the whole list. -/
def pySliceLast {α : Type} (l : List α) (n : Nat) : List α :=
  if n = 0 then l else (l.reverse.take n).reverse

/-- `ConversationManager.add_message`, with the configured
`MAX_HISTORY_MESSAGES` passed explicitly. -/
def add_message (maxHistoryMessages : Nat) (s : Session) (role content : Str) :
    Session :=
  let history := s.history ++ [(role, content)]
  let maxMessages := maxHistoryMessages * 2
  if maxMessages < history.length then
    { s with history := pySliceLast history maxMessages }
  else { s with history := history }

/-- `ConversationManager.clear_history`. -/
def clear_history (s : Session) : Session := { s with history := [] }

/- ================ services/booking_manager.py ================ -/

/-- `BookingManager.COURSE_NAMES`. -/
def COURSE_NAMES : List (Str × Str) :=
  [("book_a1a2".data, "General English A1-A2 (Beginner)".data),
   ("book_b1b2".data, "General English B1-B2 (Intermediate)".data),
   ("book_speaking".data, "Speaking Booster".data),
   ("book_business".data, "Business English".data),
   ("book_exam".data, "IELTS/TOEFL Preparation".data),
   ("book_it".data, "IT English".data),
   ("book_relocation".data, "English for Relocation".data)]

/-- `BookingManager.TIME_SLOTS`. -/
def TIME_SLOTS : List (Str × Str) :=
  [("time_morning".data, "Утро (08:00-09:00 МСК)".data),
   ("time_afternoon".data, "День (13:00-14:00 МСК)".data),
   ("time_evening".data, "Вечер (19:00-20:00 МСК)".data),
   ("time_late".data, "Поздний вечер (20:30-21:30 МСК)".data)]

/-- Python dictionary lookup `d[k]` guarded by `k in d`. -/
def lookupAssoc (l : List (Str × Str)) (k : Str) : Option Str :=
  (l.find? fun e => e.1 == k).map fun e => e.2

/-- `BookingManager.start_booking`: set state to course selection, then
clear the booking fields. -/
def start_booking (s : Session) : Session :=
  clear_booking_data (set_state s .BOOKING_COURSE)

/-- `BookingManager.cancel_booking`: clear the booking fields, then reset
the state to IDLE. -/
def cancel_booking (s : Session) : Session :=
  reset_state (clear_booking_data s)

/-- `BookingManager.set_course`. -/
def set_course (s : Session) (course_id : Str) : Bool × Session :=
  match lookupAssoc COURSE_NAMES course_id with
  | some courseName =>
      (true, set_state { s with booking_course := some courseName } .BOOKING_TIME)
  | none => (false, s)

/-- `BookingManager.set_time`. -/
def set_time (s : Session) (time_id : Str) : Bool × Session :=
  match lookupAssoc TIME_SLOTS time_id with
  | some timeSlot =>
      (true, set_state { s with booking_time := some timeSlot } .BOOKING_NAME)
  | none => (false, s)

/-- `BookingManager.set_name`: validate, then store the original (raw)
name and advance, or report the validator's error with no change. -/
def set_name (s : Session) (name : Str) : (Bool × Str) × Session :=
  let v := validate_name name
  if v.1 then
    ((true, []), set_state { s with booking_name := some name } .BOOKING_EMAIL)
  else ((false, v.2), s)

/-- `BookingManager.set_email`. -/
def set_email (s : Session) (email : Str) : (Bool × Str) × Session :=
  let v := validate_email email
  if v.1 then
    ((true, []), set_state { s with booking_email := some email } .BOOKING_PHONE)
  else ((false, v.2), s)

/-- Python `str.lower()`, restricted to the Latin and Cyrillic alphabets
this program compares (other characters are left unchanged, as Python
leaves unchanged every character without a lowercase mapping). -/
def pyLowerChar (c : Char) : Char :=
  if 'A' ≤ c && c ≤ 'Z' then Char.ofNat (c.toNat + 32)
  else if c == 'Ё' then 'ё'
  else if 0x410 ≤ c.toNat && c.toNat ≤ 0x42F then Char.ofNat (c.toNat + 0x20)
  else c

def pyLower (s : Str) : Str := s.map pyLowerChar

/-- The skip tokens accepted by `set_phone` after lowercasing. -/
def skipTokens : List Str := ["пропустить".data, "skip".data, "-".data]

/-- `BookingManager.set_phone`: empty input or a skip token stores a
literal `None` under `booking_phone` and advances; otherwise validate and
store the raw input, or report the error with no change. -/
def set_phone (s : Session) (phone : Str) : (Bool × Str) × Session :=
  if phone = [] ∨ pyLower phone ∈ skipTokens then
    ((true, []), set_state { s with booking_phone := some none } .BOOKING_CONFIRM)
  else
    let v := validate_phone phone
    if v.1 then
      ((true, []),
        set_state { s with booking_phone := some (some phone) } .BOOKING_CONFIRM)
    else ((false, v.2), s)

/-- The dictionary assembled by `get_booking_summary`. -/
structure BookingSummary where
  course : Option Str
  time : Option Str
  name : Option Str
  email : Option Str
  phone : Option Str
deriving DecidableEq, Repr

/-- Python truthiness of an optional string: `None` and `""` are falsy. -/
def truthy : Option Str → Bool
  | none => false
  | some s => s != []

/-- `BookingManager.get_booking_summary`: `None` unless course, time, name
and email are all truthy. -/
def get_booking_summary (s : Session) : Option BookingSummary :=
  let d : BookingSummary :=
    ⟨s.booking_course, s.booking_time, s.booking_name, s.booking_email,
      s.booking_phone.join⟩
  if truthy d.course && truthy d.time && truthy d.name && truthy d.email then
    some d
  else none

/-- `BookingManager.confirm_booking`. -/
def confirm_booking (s : Session) : Bool × Session :=
  match get_booking_summary s with
  | some _ => (true, reset_state (clear_booking_data s))
  | none => (false, s)

/- Helper lemmas about states and lowercasing. -/

theorem conversationStateFromValue_value (st : ConversationState) :
    conversationStateFromValue st.value = st := by
  cases st <;> rfl

theorem get_state_set_state (s : Session) (st : ConversationState) :
    get_state (set_state s st) = st := by
  simp only [get_state, set_state]
  exact conversationStateFromValue_value st

theorem pyLowerChar_space (c : Char) (h : pyIsSpace c = true) :
    pyLowerChar c = c := by
  have hc : c = ' ' ∨ c = '\t' ∨ c = '\n' ∨ c = '\r' ∨ c = '\x0b' ∨ c = '\x0c' := by
    simpa [pyIsSpace, decide_eq_true_eq, or_assoc] using h
  rcases hc with rfl | rfl | rfl | rfl | rfl | rfl <;> decide

theorem pyLower_all_space (t : Str) (h : t.all pyIsSpace = true) :
    pyLower t = t := by
  induction t with
  | nil => rfl
  | cons c rest ih =>
      simp only [List.all_cons, Bool.and_eq_true] at h
      simp only [pyLower, List.map_cons]
      rw [pyLowerChar_space c h.1]
      have := ih h.2
      simp only [pyLower] at this
      rw [this]

theorem pyStrip_all_space (t : Str) (h : t.all pyIsSpace = true) :
    pyStrip t = [] := by
  unfold pyStrip
  have h1 : t.dropWhile pyIsSpace = [] := by
    rw [List.dropWhile_eq_nil_iff]
    intro x hx
    exact (List.all_eq_true.mp h) x hx
  rw [h1]
  rfl

/-- C7, counterexample: the claim fails as stated.  The input `"-"` fails
`validate_phone` (its cleaned form has no digits), yet `set_phone` treats it
as a skip token: it returns success and mutates the session, moving the
state to `BOOKING_CONFIRM`. -/
theorem set_phone_dash_fails_validator_but_succeeds :
    (validate_phone ('-' :: [])).1 = false ∧
    (set_phone initSession ('-' :: [])).1 = (true, []) ∧
    get_state (set_phone initSession ('-' :: [])).2 = .BOOKING_CONFIRM := by
  decide

/-- C7, amended: for every session and every input, if `validate_name`
(resp. `validate_email`) rejects the input then `set_name` (resp.
`set_email`) returns `(False, error)` with the validator's message and the
session — hence `get_state` and every booking field — is unchanged; the
same holds for `set_phone` on inputs that actually reach the validator,
i.e. nonempty inputs that are not skip tokens (skip tokens such as `"-"`
bypass validation and succeed). -/
theorem setters_invalid_input_leave_session_unchanged (s : Session) (x : Str) :
    ((validate_name x).1 = false →
      set_name s x = ((false, (validate_name x).2), s)) ∧
    ((validate_email x).1 = false →
      set_email s x = ((false, (validate_email x).2), s)) ∧
    (x ≠ [] → pyLower x ∉ skipTokens → (validate_phone x).1 = false →
      set_phone s x = ((false, (validate_phone x).2), s)) := by
  refine ⟨fun hn => ?_, fun he => ?_, fun hne hsk hp => ?_⟩
  · simp only [set_name, hn, Bool.false_eq_true, if_false]
  · simp only [set_email, he, Bool.false_eq_true, if_false]
  · have hcond : ¬ (x = [] ∨ pyLower x ∈ skipTokens) := by
      intro hor
      rcases hor with h | h
      · exact hne h
      · exact hsk h
    simp only [set_phone, if_neg hcond, hp, Bool.false_eq_true, if_false]

/-- Witness for the amended C7 theorem at concrete failing inputs. -/
theorem setters_invalid_input_leave_session_unchanged_witness :
    ((validate_name ('!' :: [])).1 = false →
      set_name initSession ('!' :: []) =
        ((false, (validate_name ('!' :: [])).2), initSession)) ∧
    ((validate_email ('!' :: [])).1 = false →
      set_email initSession ('!' :: []) =
        ((false, (validate_email ('!' :: [])).2), initSession)) ∧
    (('x' :: []) ≠ [] → pyLower ('x' :: []) ∉ skipTokens →
      (validate_phone ('x' :: [])).1 = false →
      set_phone initSession ('x' :: []) =
        ((false, (validate_phone ('x' :: [])).2), initSession)) := by
  have h1 := setters_invalid_input_leave_session_unchanged initSession ('!' :: [])
  have h2 := setters_invalid_input_leave_session_unchanged initSession ('x' :: [])
  exact ⟨h1.1, h1.2.1, h2.2.2⟩

/-- C8: each skip token (`пропустить` or `skip` in any letter case, or a
dash) makes `set_phone` succeed, advance the state to `BOOKING_CONFIRM`,
and store a literal `None` under `booking_phone`, so the phone field stays
unset. -/
theorem set_phone_skip_token (s : Session) (t : Str)
    (ht : pyLower t ∈ skipTokens) :
    set_phone s t =
      ((true, []),
        set_state { s with booking_phone := some none } .BOOKING_CONFIRM) ∧
    get_state (set_phone s t).2 = .BOOKING_CONFIRM ∧
    (set_phone s t).2.booking_phone.join = none := by
  have heq : set_phone s t =
      ((true, []),
        set_state { s with booking_phone := some none } .BOOKING_CONFIRM) := by
    simp only [set_phone, if_pos (Or.inr ht)]
  refine ⟨heq, ?_, ?_⟩
  · rw [heq]
    exact get_state_set_state _ _
  · rw [heq]
    rfl

/-- Witness for C8 at the concrete token `"Skip"`. -/
theorem set_phone_skip_token_witness :
    pyLower ('S' :: 'k' :: 'i' :: 'p' :: []) ∈ skipTokens ∧
    (set_phone initSession ('S' :: 'k' :: 'i' :: 'p' :: []) =
      ((true, []),
        set_state { initSession with booking_phone := some none }
          .BOOKING_CONFIRM) ∧
    get_state (set_phone initSession ('S' :: 'k' :: 'i' :: 'p' :: [])).2 =
      .BOOKING_CONFIRM ∧
    (set_phone initSession
        ('S' :: 'k' :: 'i' :: 'p' :: [])).2.booking_phone.join = none) :=
  ⟨by decide, set_phone_skip_token initSession _ (by decide)⟩

/-- C10: a nonempty all-whitespace input is not a skip token, yet
`validate_phone` strips it to the empty string and accepts it, so
`set_phone` succeeds, stores the whitespace string itself as the phone
value, and advances the state to `BOOKING_CONFIRM`. -/
theorem set_phone_whitespace_stored (s : Session) (t : Str)
    (hne : t ≠ []) (hsp : t.all pyIsSpace = true) :
    set_phone s t =
      ((true, []),
        set_state { s with booking_phone := some (some t) } .BOOKING_CONFIRM) ∧
    get_state (set_phone s t).2 = .BOOKING_CONFIRM ∧
    (set_phone s t).2.booking_phone = some (some t) := by
  have hnotskip : ¬ (t = [] ∨ pyLower t ∈ skipTokens) := by
    intro hor
    rcases hor with h | h
    · exact hne h
    · rw [pyLower_all_space t hsp] at h
      simp only [skipTokens, List.mem_cons, List.not_mem_nil, or_false] at h
      rcases h with h | h | h <;> (subst h; exact absurd hsp (by decide))
  have hvalid : validate_phone t = (true, []) := by
    unfold validate_phone
    rw [pyStrip_all_space t hsp]
    rfl
  have heq : set_phone s t =
      ((true, []),
        set_state { s with booking_phone := some (some t) } .BOOKING_CONFIRM) := by
    simp only [set_phone, if_neg hnotskip, hvalid, if_true]
  refine ⟨heq, ?_, ?_⟩
  · rw [heq]
    exact get_state_set_state _ _
  · rw [heq]
    rfl

/-- Witness for C10 at the concrete input consisting of one space. -/
theorem set_phone_whitespace_stored_witness :
    (' ' :: []) ≠ ([] : Str) ∧ (' ' :: []).all pyIsSpace = true ∧
    (set_phone initSession (' ' :: []) =
      ((true, []),
        set_state { initSession with booking_phone := some (some (' ' :: [])) }
          .BOOKING_CONFIRM) ∧
    get_state (set_phone initSession (' ' :: [])).2 = .BOOKING_CONFIRM ∧
    (set_phone initSession (' ' :: [])).2.booking_phone =
      some (some (' ' :: []))) :=
  ⟨by decide, by decide,
    set_phone_whitespace_stored initSession _ (by decide) (by decide)⟩

/- ====== The booking-field / state invariant (claim C2) ====== -/

/-- The five `booking_*` keys of `user_data`. -/
inductive BookingField where
  | course
  | time
  | name
  | email
  | phone
deriving DecidableEq, Repr

def allBookingFields : List BookingField :=
  [.course, .time, .name, .email, .phone]

/-- A booking field is populated when its key holds a non-`None` value. -/
def fieldPopulated (s : Session) : BookingField → Bool
  | .course => s.booking_course.isSome
  | .time => s.booking_time.isSome
  | .name => s.booking_name.isSome
  | .email => s.booking_email.isSome
  | .phone => s.booking_phone.join.isSome

/-- The fields whose collection step precedes the given state in the linear
booking flow. -/
def completedFields : ConversationState → List BookingField
  | .IDLE => []
  | .BOOKING_COURSE => []
  | .BOOKING_TIME => [.course]
  | .BOOKING_NAME => [.course, .time]
  | .BOOKING_EMAIL => [.course, .time, .name]
  | .BOOKING_PHONE => [.course, .time, .name, .email]
  | .BOOKING_CONFIRM => [.course, .time, .name, .email, .phone]
  | .AI_CHAT => []

/-- The field collected by the current booking state, if any. -/
def currentField : ConversationState → Option BookingField
  | .BOOKING_COURSE => some .course
  | .BOOKING_TIME => some .time
  | .BOOKING_NAME => some .name
  | .BOOKING_EMAIL => some .email
  | .BOOKING_PHONE => some .phone
  | _ => none

/-- The invariant exactly as claim C2 states it: the populated fields are
exactly the completed ones, and the current step's field is unset. -/
def claimedInvariant (s : Session) : Bool :=
  (allBookingFields.all fun f =>
    fieldPopulated s f == decide (f ∈ completedFields (get_state s))) &&
  (match currentField (get_state s) with
   | some f => !fieldPopulated s f
   | none => true)

/-- One application of any `BookingManager` operation, with no restriction
on the state it is invoked in (the methods themselves do not check it). -/
inductive BMStep : Session → Session → Prop where
  | start (s) : BMStep s (start_booking s)
  | cancel (s) : BMStep s (cancel_booking s)
  | course (s cid) : BMStep s (set_course s cid).2
  | time (s tid) : BMStep s (set_time s tid).2
  | name (s x) : BMStep s (set_name s x).2
  | email (s x) : BMStep s (set_email s x).2
  | phone (s x) : BMStep s (set_phone s x).2
  | confirm (s) : BMStep s (confirm_booking s).2

/-- Sessions reachable from a fresh session by arbitrary sequences of
`BookingManager` operations. -/
inductive ReachableAny : Session → Prop where
  | init : ReachableAny initSession
  | step {s s'} : ReachableAny s → BMStep s s' → ReachableAny s'

/-- C2, counterexample: the claim fails as stated.  The operations are
unguarded static methods, so `set_time` can be called from the fresh IDLE
session; the resulting session is in state `BOOKING_NAME` with only the
time field populated, though `course` ought to be completed there. -/
theorem booking_invariant_fails_for_arbitrary_sequences :
    ¬ (∀ s, ReachableAny s → claimedInvariant s = true) := by
  intro h
  have r1 : ReachableAny (set_time initSession "time_morning".data).2 :=
    ReachableAny.step ReachableAny.init
      (BMStep.time initSession "time_morning".data)
  exact absurd (h _ r1) (by decide)

/-- One `BookingManager` operation invoked the way the handlers invoke it:
each data-entry operation only in its matching state (`start` and `cancel`
remain unrestricted, as the spec allows them from any state). -/
inductive BMGuardedStep : Session → Session → Prop where
  | start (s) : BMGuardedStep s (start_booking s)
  | cancel (s) : BMGuardedStep s (cancel_booking s)
  | course (s cid) (h : get_state s = .BOOKING_COURSE) :
      BMGuardedStep s (set_course s cid).2
  | time (s tid) (h : get_state s = .BOOKING_TIME) :
      BMGuardedStep s (set_time s tid).2
  | name (s x) (h : get_state s = .BOOKING_NAME) :
      BMGuardedStep s (set_name s x).2
  | email (s x) (h : get_state s = .BOOKING_EMAIL) :
      BMGuardedStep s (set_email s x).2
  | phone (s x) (h : get_state s = .BOOKING_PHONE) :
      BMGuardedStep s (set_phone s x).2
  | confirm (s) (h : get_state s = .BOOKING_CONFIRM) :
      BMGuardedStep s (confirm_booking s).2

/-- Sessions reachable from a fresh session when operations follow the
intended flow. -/
inductive ReachableFlow : Session → Prop where
  | init : ReachableFlow initSession
  | step {s s'} : ReachableFlow s → BMGuardedStep s s' → ReachableFlow s'

/-- Exact per-state description of the booking fields, the inductive
strengthening behind the amended C2 invariant. -/
def fieldsSpec (st : ConversationState) (s : Session) : Prop :=
  match st with
  | .IDLE =>
      s.booking_course = none ∧ s.booking_time = none ∧ s.booking_name = none ∧
        s.booking_email = none ∧ s.booking_phone = none
  | .BOOKING_COURSE =>
      s.booking_course = none ∧ s.booking_time = none ∧ s.booking_name = none ∧
        s.booking_email = none ∧ s.booking_phone = none
  | .BOOKING_TIME =>
      s.booking_course.isSome = true ∧ s.booking_time = none ∧
        s.booking_name = none ∧ s.booking_email = none ∧ s.booking_phone = none
  | .BOOKING_NAME =>
      s.booking_course.isSome = true ∧ s.booking_time.isSome = true ∧
        s.booking_name = none ∧ s.booking_email = none ∧ s.booking_phone = none
  | .BOOKING_EMAIL =>
      s.booking_course.isSome = true ∧ s.booking_time.isSome = true ∧
        s.booking_name.isSome = true ∧ s.booking_email = none ∧
        s.booking_phone = none
  | .BOOKING_PHONE =>
      s.booking_course.isSome = true ∧ s.booking_time.isSome = true ∧
        s.booking_name.isSome = true ∧ s.booking_email.isSome = true ∧
        s.booking_phone = none
  | .BOOKING_CONFIRM =>
      s.booking_course.isSome = true ∧ s.booking_time.isSome = true ∧
        s.booking_name.isSome = true ∧ s.booking_email.isSome = true
  | .AI_CHAT => False

def stateInv (s : Session) : Prop := fieldsSpec (get_state s) s

/- Case-analysis lemmas describing each setter's possible outcomes. -/

theorem set_course_cases (s : Session) (cid : Str) :
    (set_course s cid).2 = s ∨
    ∃ label, (set_course s cid).2 =
      set_state { s with booking_course := some label } .BOOKING_TIME := by
  cases h : lookupAssoc COURSE_NAMES cid with
  | none => left; simp [set_course, h]
  | some label => right; exact ⟨label, by simp [set_course, h]⟩

theorem set_time_cases (s : Session) (tid : Str) :
    (set_time s tid).2 = s ∨
    ∃ label, (set_time s tid).2 =
      set_state { s with booking_time := some label } .BOOKING_NAME := by
  cases h : lookupAssoc TIME_SLOTS tid with
  | none => left; simp [set_time, h]
  | some label => right; exact ⟨label, by simp [set_time, h]⟩

theorem set_name_cases (s : Session) (x : Str) :
    (set_name s x).2 = s ∨
    (set_name s x).2 = set_state { s with booking_name := some x } .BOOKING_EMAIL := by
  simp only [set_name]
  by_cases hv : (validate_name x).1 = true
  · rw [if_pos hv]; right; rfl
  · rw [if_neg hv]; left; rfl

theorem set_email_cases (s : Session) (x : Str) :
    (set_email s x).2 = s ∨
    (set_email s x).2 = set_state { s with booking_email := some x } .BOOKING_PHONE := by
  simp only [set_email]
  by_cases hv : (validate_email x).1 = true
  · rw [if_pos hv]; right; rfl
  · rw [if_neg hv]; left; rfl

theorem set_phone_cases (s : Session) (x : Str) :
    (set_phone s x).2 = s ∨
    ∃ p : Option Str, (set_phone s x).2 =
      set_state { s with booking_phone := some p } .BOOKING_CONFIRM := by
  simp only [set_phone]
  by_cases h : x = [] ∨ pyLower x ∈ skipTokens
  · rw [if_pos h]; right; exact ⟨none, rfl⟩
  · rw [if_neg h]
    by_cases hv : (validate_phone x).1 = true
    · rw [if_pos hv]; right; exact ⟨some x, rfl⟩
    · rw [if_neg hv]; left; rfl

theorem confirm_booking_cases (s : Session) :
    (confirm_booking s).2 = s ∨
    (confirm_booking s).2 = reset_state (clear_booking_data s) := by
  unfold confirm_booking
  cases get_booking_summary s with
  | none => left; rfl
  | some d => right; rfl

/-- Every session reachable along the intended flow satisfies the exact
per-state field description. -/
theorem reachableFlow_stateInv (s : Session) (h : ReachableFlow s) :
    stateInv s := by
  induction h with
  | init => exact ⟨rfl, rfl, rfl, rfl, rfl⟩
  | @step t t' hr hstep ih =>
      cases hstep with
      | start =>
          unfold stateInv
          have hst : get_state (start_booking t) = ConversationState.BOOKING_COURSE := by
            simp [start_booking, clear_booking_data, get_state, set_state,
              conversationStateFromValue_value]
          rw [hst]
          exact ⟨rfl, rfl, rfl, rfl, rfl⟩
      | cancel =>
          unfold stateInv
          have hst : get_state (cancel_booking t) = ConversationState.IDLE := by
            simp [cancel_booking, reset_state, get_state_set_state]
          rw [hst]
          exact ⟨rfl, rfl, rfl, rfl, rfl⟩
      | course cid hg =>
          rcases set_course_cases t cid with heq | ⟨label, heq⟩
          · rw [heq]; exact ih
          · unfold stateInv at ih ⊢
            rw [hg] at ih
            rw [heq, get_state_set_state]
            simp only [fieldsSpec, set_state] at ih ⊢
            exact ⟨rfl, ih.2.1, ih.2.2.1, ih.2.2.2.1, ih.2.2.2.2⟩
      | time tid hg =>
          rcases set_time_cases t tid with heq | ⟨label, heq⟩
          · rw [heq]; exact ih
          · unfold stateInv at ih ⊢
            rw [hg] at ih
            rw [heq, get_state_set_state]
            simp only [fieldsSpec, set_state] at ih ⊢
            exact ⟨ih.1, rfl, ih.2.2.1, ih.2.2.2.1, ih.2.2.2.2⟩
      | name x hg =>
          rcases set_name_cases t x with heq | heq
          · rw [heq]; exact ih
          · unfold stateInv at ih ⊢
            rw [hg] at ih
            rw [heq, get_state_set_state]
            simp only [fieldsSpec, set_state] at ih ⊢
            exact ⟨ih.1, ih.2.1, rfl, ih.2.2.2.1, ih.2.2.2.2⟩
      | email x hg =>
          rcases set_email_cases t x with heq | heq
          · rw [heq]; exact ih
          · unfold stateInv at ih ⊢
            rw [hg] at ih
            rw [heq, get_state_set_state]
            simp only [fieldsSpec, set_state] at ih ⊢
            exact ⟨ih.1, ih.2.1, ih.2.2.1, rfl, ih.2.2.2.2⟩
      | phone x hg =>
          rcases set_phone_cases t x with heq | ⟨p, heq⟩
          · rw [heq]; exact ih
          · unfold stateInv at ih ⊢
            rw [hg] at ih
            rw [heq, get_state_set_state]
            simp only [fieldsSpec, set_state] at ih ⊢
            exact ⟨ih.1, ih.2.1, ih.2.2.1, ih.2.2.2.1⟩
      | confirm hg =>
          rcases confirm_booking_cases t with heq | heq
          · rw [heq]; exact ih
          · unfold stateInv
            have hst : get_state (reset_state (clear_booking_data t)) =
                ConversationState.IDLE := by
              simp [reset_state, get_state_set_state]
            rw [heq, hst]
            exact ⟨rfl, rfl, rfl, rfl, rfl⟩

/-- The amended C2 invariant: populated required fields are exactly the
completed ones, a populated phone implies its step completed (it may stay
unpopulated when skipped), and the current step's field is unset. -/
def amendedInvariant (s : Session) : Bool :=
  ([BookingField.course, .time, .name, .email].all fun f =>
    fieldPopulated s f == decide (f ∈ completedFields (get_state s))) &&
  (!(fieldPopulated s .phone) ||
    decide (BookingField.phone ∈ completedFields (get_state s))) &&
  (match currentField (get_state s) with
   | some f => !fieldPopulated s f
   | none => true)

/-- C2, amended: for every session reachable by sequences of
`BookingManager` operations in which each data-entry operation runs only in
its matching state (as the handlers invoke them), the populated required
booking fields are exactly those whose collection step has completed, the
phone field is populated only if its step has completed (it may stay unset
when skipped), and the field collected by the current state is never yet
set. -/
theorem booking_invariant_along_flow (s : Session) (h : ReachableFlow s) :
    amendedInvariant s = true := by
  have hinv := reachableFlow_stateInv s h
  unfold stateInv at hinv
  cases hst : get_state s with
  | IDLE =>
      rw [hst] at hinv
      obtain ⟨h1, h2, h3, h4, h5⟩ := hinv
      simp [amendedInvariant, hst, completedFields, currentField,
        fieldPopulated, h1, h2, h3, h4, h5]
  | BOOKING_COURSE =>
      rw [hst] at hinv
      obtain ⟨h1, h2, h3, h4, h5⟩ := hinv
      simp [amendedInvariant, hst, completedFields, currentField,
        fieldPopulated, h1, h2, h3, h4, h5]
  | BOOKING_TIME =>
      rw [hst] at hinv
      obtain ⟨h1, h2, h3, h4, h5⟩ := hinv
      simp [amendedInvariant, hst, completedFields, currentField,
        fieldPopulated, h1, h2, h3, h4, h5]
  | BOOKING_NAME =>
      rw [hst] at hinv
      obtain ⟨h1, h2, h3, h4, h5⟩ := hinv
      simp [amendedInvariant, hst, completedFields, currentField,
        fieldPopulated, h1, h2, h3, h4, h5]
  | BOOKING_EMAIL =>
      rw [hst] at hinv
      obtain ⟨h1, h2, h3, h4, h5⟩ := hinv
      simp [amendedInvariant, hst, completedFields, currentField,
        fieldPopulated, h1, h2, h3, h4, h5]
  | BOOKING_PHONE =>
      rw [hst] at hinv
      obtain ⟨h1, h2, h3, h4, h5⟩ := hinv
      simp [amendedInvariant, hst, completedFields, currentField,
        fieldPopulated, h1, h2, h3, h4, h5]
  | BOOKING_CONFIRM =>
      rw [hst] at hinv
      obtain ⟨h1, h2, h3, h4⟩ := hinv
      simp [amendedInvariant, hst, completedFields, currentField,
        fieldPopulated, h1, h2, h3, h4]
  | AI_CHAT =>
      rw [hst] at hinv
      exact absurd hinv not_false

/-- Witness for the amended C2 theorem: the session reached by starting a
booking from a fresh session. -/
theorem booking_invariant_along_flow_witness :
    amendedInvariant (start_booking initSession) = true :=
  booking_invariant_along_flow _
    (ReachableFlow.step ReachableFlow.init (BMGuardedStep.start initSession))

/- ====== History bound (claim C4) ====== -/

/-- The last `n` entries of a list, in order (`l[-n:]` for `n ≥ 1`). -/
def lastN {α : Type} (n : Nat) (l : List α) : List α := (l.reverse.take n).reverse

/-- A sequence of `add_message` calls folded over a session. -/
def runAdds (maxHistoryMessages : Nat) (s : Session) (ms : List (Str × Str)) :
    Session :=
  ms.foldl (fun acc m => add_message maxHistoryMessages acc m.1 m.2) s

theorem lastN_of_length_le {α : Type} (n : Nat) (l : List α)
    (h : l.length ≤ n) : lastN n l = l := by
  unfold lastN
  rw [List.take_of_length_le (by simpa using h), List.reverse_reverse]

theorem length_lastN {α : Type} (n : Nat) (l : List α) :
    (lastN n l).length = min n l.length := by
  unfold lastN
  simp

theorem lastN_append {α : Type} (n : Nat) (l ms : List α) :
    lastN n (lastN n l ++ ms) = lastN n (l ++ ms) := by
  unfold lastN
  rw [List.reverse_append, List.reverse_reverse, List.reverse_append]
  congr 1
  rw [List.take_append_eq_append_take, List.take_append_eq_append_take,
    List.take_take, Nat.min_eq_left (Nat.sub_le _ _)]

theorem pySliceLast_eq_lastN {α : Type} (l : List α) (n : Nat) (hn : n ≠ 0) :
    pySliceLast l n = lastN n l := by
  unfold pySliceLast lastN
  rw [if_neg hn]

/-- After any run of `add_message` calls from a history that fits the bound,
the stored history is exactly the last `2N` of all entries, in order. -/
theorem runAdds_history (N : Nat) (hN : 1 ≤ N) :
    ∀ (ms : List (Str × Str)) (s : Session), s.history.length ≤ 2 * N →
      (runAdds N s ms).history = lastN (2 * N) (s.history ++ ms) := by
  intro ms
  induction ms with
  | nil =>
      intro s hs
      rw [List.append_nil]
      exact (lastN_of_length_le _ _ hs).symm
  | cons m ms ih =>
      intro s hs
      have hstep : runAdds N s (m :: ms) =
          runAdds N (add_message N s m.1 m.2) ms := rfl
      rw [hstep]
      have hmul : N * 2 = 2 * N := Nat.mul_comm N 2
      have hm : (m.1, m.2) = m := rfl
      by_cases hlen : 2 * N < (s.history ++ [m]).length
      · have hadd : add_message N s m.1 m.2 =
            { s with history := pySliceLast (s.history ++ [m]) (2 * N) } := by
          simp only [add_message, hm, hmul]
          rw [if_pos hlen]
        rw [hadd]
        have h2N : (2 : Nat) * N ≠ 0 := by omega
        have hh : ({ s with history := pySliceLast (s.history ++ [m]) (2 * N) } :
            Session).history = lastN (2 * N) (s.history ++ [m]) := by
          simp [pySliceLast_eq_lastN _ _ h2N]
        rw [ih _ (by rw [hh, length_lastN]; omega)]
        rw [hh, lastN_append]
        rw [List.append_assoc]
        rfl
      · have hadd : add_message N s m.1 m.2 =
            { s with history := s.history ++ [m] } := by
          simp only [add_message, hm, hmul]
          rw [if_neg hlen]
        rw [hadd]
        rw [ih _ (by simpa using Nat.le_of_not_lt hlen)]
        rw [List.append_assoc]
        rfl

/-- C4: starting from a fresh session, after each `add_message` call (i.e.
for every prefix of the appended messages) the stored history is exactly
the most recently appended `2N` entries in their original order, and its
length never exceeds `2N`.  `N ≥ 1` is the configured number of history
pairs, which `Config.validate` enforces at startup. -/
theorem add_message_history_bound (N : Nat) (hN : 1 ≤ N)
    (ms : List (Str × Str)) (k : Nat) :
    (runAdds N initSession (ms.take k)).history = lastN (2 * N) (ms.take k) ∧
    (runAdds N initSession (ms.take k)).history.length ≤ 2 * N := by
  have h := runAdds_history N hN (ms.take k) initSession (by simp [initSession])
  have hinit : (initSession.history ++ ms.take k) = ms.take k := by
    simp [initSession]
  rw [hinit] at h
  refine ⟨h, ?_⟩
  rw [h, length_lastN]
  omega

/-- Witness for C4 with one configured pair and three appended messages:
only the last two are retained. -/
theorem add_message_history_bound_witness :
    (1 : Nat) ≤ 1 ∧
    ((runAdds 1 initSession
        ([(("u").data, ("a").data), (("a").data, ("b").data),
          (("u").data, ("c").data)].take 3)).history =
      lastN (2 * 1)
        ([(("u").data, ("a").data), (("a").data, ("b").data),
          (("u").data, ("c").data)].take 3) ∧
    (runAdds 1 initSession
        ([(("u").data, ("a").data), (("a").data, ("b").data),
          (("u").data, ("c").data)].take 3)).history.length ≤ 2 * 1) :=
  ⟨by decide, add_message_history_bound 1 (by decide) _ 3⟩

/- ===================== services/ai_service.py ===================== -/

/-- The in-memory response cache `self._cache`: an insertion-ordered
dictionary from cache key to `(response, timestamp)` pairs, modelled as an
association list without duplicate keys (a new key is appended at the end,
an overwrite keeps the position).  Timestamps are naturals standing for
`time.time()`. -/
abbrev Cache := List (Str × (Str × Nat))

/-- Python `cache[k]` guarded by `k in cache`. -/
def lookupCache (c : Cache) (k : Str) : Option (Str × Nat) :=
  (c.find? fun e => e.1 == k).map fun e => e.2

/-- Python `del cache[k]`. -/
def deleteKey (c : Cache) (k : Str) : Cache := c.filter fun e => !(e.1 == k)

/-- Python `cache[k] = v`: overwrite in place or append a new key. -/
def insertUpdate (c : Cache) (k : Str) (v : Str × Nat) : Cache :=
  if (c.find? fun e => e.1 == k).isSome then
    c.map fun e => if e.1 == k then (k, v) else e
  else c ++ [(k, v)]

/-- `AIService._get_cached_response`, with the configured `AI_CACHE_TTL`
and the current time passed explicitly.  Returns the hit, if any, together
with the cache after the lazy deletion of an expired entry. -/
def get_cached_response (ttl : Nat) (c : Cache) (k : Str) (now : Nat) :
    Option Str × Cache :=
  match lookupCache c k with
  | some (resp, ts) =>
      if now - ts < ttl then (some resp, c) else (none, deleteKey c k)
  | none => (none, c)

/-- Stable insertion into a timestamp-sorted list: an entry moves left past
exactly the entries with a strictly larger timestamp, the way Python's
stable `sorted` keeps ties in encounter order. -/
def insertByTs (e : Str × (Str × Nat)) : Cache → Cache
  | [] => [e]
  | f :: fs => if f.2.2 < e.2.2 then f :: insertByTs e fs else e :: f :: fs

/-- Python `sorted(self._cache.items(), key=lambda x: x[1][1])`. -/
def sortByTs : Cache → Cache
  | [] => []
  | e :: es => insertByTs e (sortByTs es)

/-- `AIService._cache_response`: store the response with the current time,
then if the store holds more than 100 entries delete the 20
oldest-by-timestamp keys. -/
def cache_response (c : Cache) (k : Str) (resp : Str) (now : Nat) : Cache :=
  let c2 := insertUpdate c k (resp, now)
  if 100 < c2.length then
    ((sortByTs c2).take 20).foldl (fun acc e => deleteKey acc e.1) c2
  else c2

theorem lookup_deleteKey (c : Cache) (k : Str) :
    lookupCache (deleteKey c k) k = none := by
  induction c with
  | nil => rfl
  | cons e es ih =>
      by_cases h : e.1 == k
      · simp only [deleteKey, List.filter_cons, h, Bool.not_true, if_neg]
        exact ih
      · have hb : (!(e.1 == k)) = true := by simp [h]
        simp only [deleteKey, List.filter_cons, hb, if_pos]
        simp only [lookupCache, List.find?_cons, h]
        exact ih

/-- C5: a response cached under a key at time `T` is returned unchanged by
a lookup with that key at time `T + ε` for every `ε` strictly below the
TTL, and at `T + ε` for `ε ≥ TTL` the entry is treated as absent: the
lookup returns nothing and lazily deletes it. -/
theorem cached_response_ttl (ttl : Nat) (c : Cache) (k resp : Str) (T ε : Nat)
    (hlook : lookupCache c k = some (resp, T)) :
    (ε < ttl → (get_cached_response ttl c k (T + ε)).1 = some resp) ∧
    (ttl ≤ ε → (get_cached_response ttl c k (T + ε)).1 = none ∧
      lookupCache (get_cached_response ttl c k (T + ε)).2 k = none) := by
  have hsub : T + ε - T = ε := by omega
  simp only [get_cached_response, hlook, hsub]
  constructor
  · intro h
    rw [if_pos h]
  · intro h
    rw [if_neg (by omega)]
    exact ⟨rfl, lookup_deleteKey c k⟩

/-- Witness for C5: a one-entry cache inserted at time 5 with TTL 900,
looked up 3 units later. -/
theorem cached_response_ttl_witness :
    lookupCache [(('k' :: []), (('v' :: []), 5))] ('k' :: []) =
      some (('v' :: []), 5) ∧
    ((3 < 900 →
      (get_cached_response 900 [(('k' :: []), (('v' :: []), 5))]
        ('k' :: []) (5 + 3)).1 = some ('v' :: [])) ∧
    (900 ≤ 3 →
      (get_cached_response 900 [(('k' :: []), (('v' :: []), 5))]
        ('k' :: []) (5 + 3)).1 = none ∧
      lookupCache (get_cached_response 900 [(('k' :: []), (('v' :: []), 5))]
        ('k' :: []) (5 + 3)).2 ('k' :: []) = none)) :=
  ⟨by decide, cached_response_ttl 900 _ _ _ 5 3 (by decide)⟩

theorem insertUpdate_new (c : Cache) (k : Str) (v : Str × Nat)
    (h : lookupCache c k = none) : insertUpdate c k v = c ++ [(k, v)] := by
  cases hfind : (c.find? fun e => e.1 == k) with
  | none => simp [insertUpdate, hfind]
  | some e =>
      unfold lookupCache at h
      rw [hfind] at h
      simp at h

theorem insertByTs_lt_head (e : Str × (Str × Nat)) (l : Cache)
    (h : ∀ f ∈ l, e.2.2 < f.2.2) : insertByTs e l = e :: l := by
  cases l with
  | nil => rfl
  | cons f fs =>
      have hf : ¬ (f.2.2 < e.2.2) := by
        have := h f (List.mem_cons_self _ _)
        omega
      simp [insertByTs, hf]

/-- A list already strictly sorted by timestamp is left unchanged by the
stable sort. -/
theorem sortByTs_sorted (l : Cache)
    (h : l.Pairwise fun a b => a.2.2 < b.2.2) : sortByTs l = l := by
  induction l with
  | nil => rfl
  | cons e es ih =>
      rw [List.pairwise_cons] at h
      simp only [sortByTs]
      rw [ih h.2, insertByTs_lt_head e es h.1]

theorem deleteKey_not_mem (l : Cache) (k : Str)
    (h : k ∉ l.map fun e => e.1) : deleteKey l k = l := by
  unfold deleteKey
  apply List.filter_eq_self.mpr
  intro a ha
  have hne : a.1 ≠ k := by
    intro heq
    exact h (by rw [← heq]; exact List.mem_map_of_mem _ ha)
  simp [hne]

/-- Deleting, in order, the keys of the first `n` entries of a
duplicate-free association list removes exactly those entries. -/
theorem foldl_deleteKey_take :
    ∀ (l : Cache), (l.map fun e => e.1).Nodup →
      ∀ n, ((l.take n).foldl (fun acc e => deleteKey acc e.1) l) = l.drop n := by
  intro l
  induction l with
  | nil => intro _ n; simp
  | cons e es ih =>
      intro hnd n
      rw [List.map_cons, List.nodup_cons] at hnd
      cases n with
      | zero => simp
      | succ m =>
          simp only [List.take_succ_cons, List.foldl_cons, List.drop_succ_cons]
          have h1 : deleteKey (e :: es) e.1 = es := by
            have h2 := deleteKey_not_mem es e.1 hnd.1
            unfold deleteKey at h2 ⊢
            rw [List.filter_cons]
            have hb : (!(e.1 == e.1)) = false := by simp
            rw [hb]
            simpa using h2
          rw [h1]
          exact ih hnd.2 m

/-- C6: inserting a fresh key into a cache at the 100-entry capacity
triggers a batch eviction of exactly the 20 oldest-by-insertion-time
entries: the resulting store is the insertion-ordered list minus its first
20 entries, hence 81 ≤ 100 entries.  The hypotheses are the Python dict
invariants (distinct keys) and the fact that entries were timestamped in
insertion order with strictly increasing times. -/
theorem cache_eviction_batch (c : Cache) (k resp : Str) (now : Nat)
    (hlen : c.length = 100)
    (hnew : lookupCache c k = none)
    (hkeys : ((c ++ [(k, (resp, now))]).map fun e => e.1).Nodup)
    (hts : (c ++ [(k, (resp, now))]).Pairwise fun a b => a.2.2 < b.2.2) :
    cache_response c k resp now = (c ++ [(k, (resp, now))]).drop 20 ∧
    (cache_response c k resp now).length = 81 := by
  have hins := insertUpdate_new c k (resp, now) hnew
  have hlen2 : (c ++ [(k, (resp, now))]).length = 101 := by
    rw [List.length_append, hlen]
    rfl
  have hmain : cache_response c k resp now = (c ++ [(k, (resp, now))]).drop 20 := by
    simp only [cache_response]
    rw [hins]
    rw [if_pos (by rw [hlen2]; omega)]
    rw [sortByTs_sorted _ hts]
    exact foldl_deleteKey_take _ hkeys 20
  refine ⟨hmain, ?_⟩
  rw [hmain, List.length_drop, hlen2]

/-- A concrete full cache: 100 distinct one-character keys inserted at
times 0..99. -/
def evictionWitnessCache : Cache :=
  (List.range 100).map fun i => ((Char.ofNat (160 + i)) :: [], ([], i))

/-- Witness for C6 on the concrete full cache. -/
theorem cache_eviction_batch_witness :
    evictionWitnessCache.length = 100 ∧
    lookupCache evictionWitnessCache ('k' :: []) = none ∧
    (cache_response evictionWitnessCache ('k' :: []) [] 1000 =
      (evictionWitnessCache ++ [(('k' :: []), ([], 1000))]).drop 20 ∧
    (cache_response evictionWitnessCache ('k' :: []) [] 1000).length = 81) :=
  ⟨by decide, by decide,
    cache_eviction_batch _ _ _ _ (by decide) (by decide) (by decide) (by decide)⟩

/-- The default text substituted when the provider returns empty or null
content (`response.choices[0].message.content or "..."`). -/
def empty_content_response : Str := "Извините, не смог сформировать ответ.".data

/-- Python `content or default` over the nullable provider content. -/
def response_text (content : Option Str) : Str :=
  match content with
  | some s => if s = [] then empty_content_response else s
  | none => empty_content_response

/-- `AIService._get_fallback_response`: the fixed, pre-written contact
message returned when every attempt fails. -/
def fallback_response : Str :=
  ("😔 Извините, AI-помощник временно недоступен. " ++
   "Пожалуйста, попробуйте через несколько минут или свяжитесь с нашей поддержкой:\n\n" ++
   "📧 support@speakflow-english.com\n" ++
   "📱 +7 495 123 45 67\n\n" ++
   "Мы работаем Пн-Пт с 10:00 до 19:00 МСК.").data

/-- Outcome of `get_response`: the returned text, the cache afterwards, the
number of provider call attempts performed, and the backoff sleeps issued
in order. -/
structure CallResult where
  text : Str
  cache : Cache
  attempts : Nat
  sleeps : List Nat
deriving DecidableEq, Repr

/-- The `for attempt in range(R)` retry loop of `get_response` (lines
69-111), indexed by the remaining iterations (`attempt + remaining = R`).
The provider is an oracle `call : Nat → Option (Option Str)`: `none` is a
raised exception, `some content` a response whose `message.content` is
`content`.  A success stores the text under the cache key (when one was
derived) and returns; a failure on the last attempt returns the fallback;
an earlier failure sleeps `2 ^ attempt` units and retries. -/
def retryFuel (call : Nat → Option (Option Str)) (cacheKey : Option Str)
    (cache : Cache) (now : Nat) : Nat → Nat → CallResult
  | 0, _ => ⟨fallback_response, cache, 0, []⟩
  | remaining + 1, attempt =>
      match call attempt with
      | some content =>
          ⟨response_text content,
            (match cacheKey with
             | some ck => cache_response cache ck (response_text content) now
             | none => cache), 1, []⟩
      | none =>
          if remaining = 0 then ⟨fallback_response, cache, 1, []⟩
          else
            let r := retryFuel call cacheKey cache now remaining (attempt + 1)
            ⟨r.text, r.cache, r.attempts + 1, 2 ^ attempt :: r.sleeps⟩

/-- The cache-key derivation of `get_response` (lines 50-56): the most
recent user-authored message, truncated to 100 characters and prefixed by
the context tag, provided caching is on and that message is truthy. -/
def lastUserMessage (messages : List (Str × Str)) : Option Str :=
  (messages.reverse.find? fun m => m.1 == "user".data).map fun m => m.2

def deriveCacheKey (messages : List (Str × Str)) (contextTag : Str)
    (use_cache : Bool) : Option Str :=
  if use_cache ∧ messages ≠ [] then
    match lastUserMessage messages with
    | some m => if m ≠ [] then some (contextTag ++ ':' :: m.take 100) else none
    | none => none
  else none

/-- `AIService.get_response`, with the configured retry attempts and TTL,
the clock and the provider oracle passed explicitly, threading the shared
cache in and out. -/
def get_response (retryAttempts ttl : Nat) (call : Nat → Option (Option Str))
    (messages : List (Str × Str)) (contextTag : Str) (use_cache : Bool)
    (cache : Cache) (now : Nat) : CallResult :=
  match deriveCacheKey messages contextTag use_cache with
  | some ck =>
      match get_cached_response ttl cache ck now with
      | (some cached, c2) =>
          if cached ≠ [] then ⟨cached, c2, 0, []⟩
          else retryFuel call (some ck) c2 now retryAttempts 0
      | (none, c2) => retryFuel call (some ck) c2 now retryAttempts 0
  | none => retryFuel call none cache now retryAttempts 0

/-- Unfolding of one failing, non-final iteration of the retry loop. -/
theorem retryFuel_fail_step (call : Nat → Option (Option Str))
    (ck : Option Str) (cache : Cache) (now rem attempt : Nat)
    (hc : call attempt = none) (hrem : rem ≠ 0) :
    retryFuel call ck cache now (rem + 1) attempt =
      ⟨(retryFuel call ck cache now rem (attempt + 1)).text,
        (retryFuel call ck cache now rem (attempt + 1)).cache,
        (retryFuel call ck cache now rem (attempt + 1)).attempts + 1,
        2 ^ attempt :: (retryFuel call ck cache now rem (attempt + 1)).sleeps⟩ := by
  simp only [retryFuel, hc, if_neg hrem]

/-- Unfolding of a failing final iteration of the retry loop. -/
theorem retryFuel_fail_last (call : Nat → Option (Option Str))
    (ck : Option Str) (cache : Cache) (now attempt : Nat)
    (hc : call attempt = none) :
    retryFuel call ck cache now 1 attempt = ⟨fallback_response, cache, 1, []⟩ := by
  simp [retryFuel, hc]

/-- Unfolding of a successful iteration of the retry loop. -/
theorem retryFuel_success_step (call : Nat → Option (Option Str))
    (ck : Option Str) (cache : Cache) (now rem attempt : Nat)
    (content : Option Str) (hc : call attempt = some content) :
    retryFuel call ck cache now (rem + 1) attempt =
      ⟨response_text content,
        (match ck with
         | some k => cache_response cache k (response_text content) now
         | none => cache), 1, []⟩ := by
  simp only [retryFuel, hc]

/-- When every remaining attempt raises, the loop performs exactly that
many calls, returns the fallback text and leaves the cache alone. -/
theorem retryFuel_all_fail (call : Nat → Option (Option Str))
    (ck : Option Str) (cache : Cache) (now : Nat) :
    ∀ (remaining attempt : Nat),
      (∀ i, attempt ≤ i → i < attempt + remaining → call i = none) →
      (retryFuel call ck cache now remaining attempt).text = fallback_response ∧
      (retryFuel call ck cache now remaining attempt).attempts = remaining ∧
      (retryFuel call ck cache now remaining attempt).cache = cache := by
  intro remaining
  induction remaining with
  | zero => intro attempt _; exact ⟨rfl, rfl, rfl⟩
  | succ rem ih =>
      intro attempt h
      have hcall : call attempt = none := h attempt le_rfl (by omega)
      cases rem with
      | zero => rw [retryFuel_fail_last call ck cache now attempt hcall]; exact ⟨rfl, rfl, rfl⟩
      | succ rem2 =>
          have hr := ih (attempt + 1) (fun i h1 h2 => h i (by omega) (by omega))
          rw [retryFuel_fail_step call ck cache now (rem2 + 1) attempt hcall
            (Nat.succ_ne_zero rem2)]
          refine ⟨hr.1, ?_, hr.2.2⟩
          show (retryFuel call ck cache now (rem2 + 1) (attempt + 1)).attempts + 1 =
            rem2 + 1 + 1
          rw [hr.2.1]

/-- With an empty cache, `get_response` always falls through to the retry
loop (under some derived key). -/
theorem get_response_empty_cache_runs_loop (R ttl : Nat)
    (call : Nat → Option (Option Str)) (messages : List (Str × Str))
    (contextTag : Str) (use_cache : Bool) (now : Nat) :
    ∃ ck, get_response R ttl call messages contextTag use_cache [] now =
      retryFuel call ck [] now R 0 := by
  unfold get_response
  cases hk : deriveCacheKey messages contextTag use_cache with
  | none => exact ⟨none, rfl⟩
  | some ck =>
      refine ⟨some ck, ?_⟩
      have hmiss : get_cached_response ttl [] ck now = (none, []) := rfl
      simp only [hmiss]

/-- C3: if every one of the `R` configured provider attempts raises, then
`get_response` performs exactly `R` call attempts and returns the fixed
pre-written fallback message; being a total function of the embedded state
it propagates no exception.  The cache is empty, so no hit preempts the
calls. -/
theorem get_response_all_attempts_fail (R ttl : Nat)
    (call : Nat → Option (Option Str)) (messages : List (Str × Str))
    (contextTag : Str) (use_cache : Bool) (now : Nat)
    (hfail : ∀ i, i < R → call i = none) :
    (get_response R ttl call messages contextTag use_cache [] now).text =
      fallback_response ∧
    (get_response R ttl call messages contextTag use_cache [] now).attempts = R := by
  obtain ⟨ck, hck⟩ :=
    get_response_empty_cache_runs_loop R ttl call messages contextTag use_cache now
  rw [hck]
  have h := retryFuel_all_fail call ck [] now R 0 (fun i _ h2 => hfail i (by omega))
  exact ⟨h.1, h.2.1⟩

/-- Witness for C3: three attempts, all raising. -/
theorem get_response_all_attempts_fail_witness :
    (∀ i : Nat, i < 3 → (fun _ : Nat => (none : Option (Option Str))) i = none) ∧
    ((get_response 3 900 (fun _ => none) [] [] false [] 0).text =
      fallback_response ∧
    (get_response 3 900 (fun _ => none) [] [] false [] 0).attempts = 3) :=
  ⟨fun _ _ => rfl,
    get_response_all_attempts_fail 3 900 (fun _ => none) [] [] false 0
      (fun _ _ => rfl)⟩

/-- C9: with 3 configured attempts, failures on attempts 0 and 1 and a
success with truthy content `t` on attempt 2, `get_response` returns
exactly the third call's text, and exactly two backoff sleeps occur, of
`2 ^ 0` and `2 ^ 1` time units in that order — none after the final
attempt. -/
theorem get_response_two_failures_then_success (ttl : Nat)
    (call : Nat → Option (Option Str)) (messages : List (Str × Str))
    (contextTag : Str) (cache : Cache) (now : Nat) (t : Str)
    (h0 : call 0 = none) (h1 : call 1 = none) (h2 : call 2 = some (some t))
    (ht : t ≠ []) :
    (get_response 3 ttl call messages contextTag false cache now).text = t ∧
    (get_response 3 ttl call messages contextTag false cache now).sleeps =
      [2 ^ 0, 2 ^ 1] ∧
    (get_response 3 ttl call messages contextTag false cache now).attempts = 3 := by
  have hkey : deriveCacheKey messages contextTag false = none := by
    simp [deriveCacheKey]
  have hloop : get_response 3 ttl call messages contextTag false cache now =
      retryFuel call none cache now 3 0 := by
    unfold get_response
    rw [hkey]
  rw [hloop]
  rw [retryFuel_fail_step call none cache now 2 0 h0 (by omega)]
  rw [retryFuel_fail_step call none cache now 1 1 h1 (by omega)]
  rw [retryFuel_success_step call none cache now 0 2 (some t) h2]
  refine ⟨?_, rfl, rfl⟩
  show response_text (some t) = t
  simp [response_text, ht]

/-- Witness for C9 at a concrete oracle failing twice then answering "x". -/
theorem get_response_two_failures_then_success_witness :
    ((fun i : Nat => if i == 2 then some (some ('x' :: [])) else none) 0 =
      none) ∧
    ((fun i : Nat => if i == 2 then some (some ('x' :: [])) else none) 1 =
      none) ∧
    ((fun i : Nat => if i == 2 then some (some ('x' :: [])) else none) 2 =
      some (some ('x' :: []))) ∧
    (('x' :: []) : Str) ≠ [] ∧
    ((get_response 3 900
        (fun i => if i == 2 then some (some ('x' :: [])) else none)
        [] [] false [] 0).text = ('x' :: []) ∧
    (get_response 3 900
        (fun i => if i == 2 then some (some ('x' :: [])) else none)
        [] [] false [] 0).sleeps = [2 ^ 0, 2 ^ 1] ∧
    (get_response 3 900
        (fun i => if i == 2 then some (some ('x' :: [])) else none)
        [] [] false [] 0).attempts = 3) :=
  ⟨by decide, by decide, by decide, by decide,
    get_response_two_failures_then_success 900
      (fun i => if i == 2 then some (some ('x' :: [])) else none)
      [] [] [] 0 ('x' :: []) (by decide) (by decide) (by decide) (by decide)⟩
